import Mathlib

/-!
Shallow embedding of the pastey clipboard manager's history store
(`src/database.py`, class `ClipboardDB`) and of the clipboard poller
(`src/clipboard_monitor.py`, `ClipboardMonitor._monitor_loop`) together with
the insertion callback (`src/pastey.py`, `PasteyApp.on_clipboard_change`).

Modelling conventions:
* A row of the `clipboard_items` table is an `Item`.  The SQLite table is a
  `ClipboardDB`: the list of rows held in rowid (`id`) ascending order —
  the physical scan order of the table — plus the AUTOINCREMENT counter.
* Timestamps (`datetime.now()` values, stored as text and compared
  chronologically) are modelled as `Nat`, passed explicitly to the
  operations that read the clock.
* `ORDER BY` clauses are modelled as sorts by a total key.  SQLite scans
  rows in rowid order and sorts them stably, so a clause like
  `ORDER BY timestamp DESC` leaves rows with equal timestamps in rowid
  (= `id`) ascending order; the model therefore sorts by the total key
  (timestamp descending, id ascending).
* `LIMIT n` is `List.take n` (the `n ≥ 0` case; the claims under study use
  only non-negative limits, so the limit is a `Nat`).
* Booleans stored in the table are `Bool`; the nullable `alias` column is an
  `Option String`.
-/

namespace Pastey

/-- One row of the `clipboard_items` table (`src/database.py`, `init_database`):
`id INTEGER PRIMARY KEY AUTOINCREMENT, content TEXT NOT NULL,
is_pinned BOOLEAN DEFAULT 0, is_sensitive BOOLEAN DEFAULT 0,
alias TEXT DEFAULT NULL, timestamp DATETIME DEFAULT CURRENT_TIMESTAMP`. -/
structure Item where
  id : Nat
  content : String
  is_pinned : Bool
  is_sensitive : Bool
  aliasCol : Option String
  timestamp : Nat
deriving Repr, DecidableEq

/-- The `clipboard_items` table: rows in rowid (`id`) ascending order, plus
the AUTOINCREMENT counter that supplies the next fresh `id`. -/
structure ClipboardDB where
  items : List Item
  next_id : Nat
deriving Repr, DecidableEq

/-- Well-formedness facts SQLite guarantees for the table: `id` is a primary
key (no two rows share an id) and AUTOINCREMENT never hands out an id already
present. -/
def WF (db : ClipboardDB) : Prop :=
  (db.items.map Item.id).Nodup ∧ ∀ x ∈ db.items, x.id < db.next_id

instance (db : ClipboardDB) : Decidable (WF db) := by
  unfold WF; exact inferInstance

/-- The key of `ORDER BY timestamp DESC` as executed over the table:
timestamp descending, ties resolved by rowid (`id`) ascending, which is the
order in which SQLite's stable sort leaves rows it scanned in rowid order. -/
def tsDesc (a b : Item) : Prop :=
  b.timestamp < a.timestamp ∨ (a.timestamp = b.timestamp ∧ a.id ≤ b.id)

instance : DecidableRel tsDesc := fun a b => by
  unfold tsDesc; exact inferInstance

instance : IsTotal Item tsDesc := ⟨by intro a b; unfold tsDesc; omega⟩

instance : IsTrans Item tsDesc := ⟨by intro a b c; unfold tsDesc; omega⟩

/-- `SELECT * FROM clipboard_items ... ORDER BY timestamp DESC`. -/
def sortByRecency (l : List Item) : List Item :=
  List.insertionSort tsDesc l

/-- `WHERE is_pinned = 0`. -/
def unpinnedItems (l : List Item) : List Item :=
  l.filter fun x => !x.is_pinned

/-- `WHERE is_pinned = 1`. -/
def pinnedItems (l : List Item) : List Item :=
  l.filter fun x => x.is_pinned

/-- The number of non-pinned rows in the table. -/
def unpinnedCount (l : List Item) : Nat :=
  (unpinnedItems l).length

/-- `SELECT content FROM clipboard_items ORDER BY timestamp DESC LIMIT 1`:
the most recent row, if any (`ClipboardDB.is_duplicate`'s query). -/
def mostRecent? (db : ClipboardDB) : Option Item :=
  (sortByRecency db.items).head?

/-- `ClipboardDB.is_duplicate` (`src/database.py:65-75`): the content equals
the content of the most recent row; `False` on an empty table (the Python
`result and result[0] == content` is falsy when `fetchone` returns `None`). -/
def is_duplicate (db : ClipboardDB) (content : String) : Bool :=
  match mostRecent? db with
  | none => false
  | some it => it.content == content

/-- `ClipboardDB.add_item` (`src/database.py:46-63`): reject a duplicate of
the most recent row, otherwise `INSERT INTO clipboard_items (content,
is_pinned, timestamp) VALUES (?, 0, ?)` with `datetime.now()` as the
timestamp (here the explicit `now`); `is_sensitive` and `alias` take their
column defaults `0` and `NULL`.  Returns the new state and the Python
return value (`True` iff a row was inserted). -/
def add_item (db : ClipboardDB) (content : String) (now : Nat) :
    ClipboardDB × Bool :=
  if is_duplicate db content then (db, false)
  else
    (⟨db.items ++ [⟨db.next_id, content, false, false, none, now⟩],
      db.next_id + 1⟩, true)

/-- The key of `ORDER BY is_pinned DESC, timestamp DESC` (ties beyond the
two listed columns again stay in rowid ascending order via `tsDesc`). -/
def displayOrder (a b : Item) : Prop :=
  (a.is_pinned = true ∧ b.is_pinned = false) ∨
    (a.is_pinned = b.is_pinned ∧ tsDesc a b)

instance : DecidableRel displayOrder := fun a b => by
  unfold displayOrder; exact inferInstance

instance : IsTotal Item displayOrder := ⟨by
  intro a b
  unfold displayOrder tsDesc
  cases ha : a.is_pinned <;> cases hb : b.is_pinned <;> simp <;> omega⟩

instance : IsTrans Item displayOrder := ⟨by
  intro a b c hab hbc
  unfold displayOrder tsDesc at *
  cases ha : a.is_pinned <;> cases hb : b.is_pinned <;> cases hc : c.is_pinned <;>
    simp_all <;> omega⟩

/-- `ClipboardDB.get_all_items` (`src/database.py:77-86`):
`SELECT id, content, is_pinned, is_sensitive, alias, timestamp FROM
clipboard_items ORDER BY is_pinned DESC, timestamp DESC`.  A pure query: the
state is not part of the result because the operation never changes it. -/
def get_all_items (db : ClipboardDB) : List Item :=
  List.insertionSort displayOrder db.items

/-- The fixed placeholder `'*** Sensitive Data ***'` from
`ClipboardDB.toggle_sensitive`. -/
def defaultAlias : String := "*** Sensitive Data ***"

/-- Python truthiness of the optional `alias` argument in
`if new_sensitive and alias:` — `None` and the empty string are falsy. -/
def aliasTruthy : Option String → Bool
  | none => false
  | some s => s ≠ ""

/-- The row update performed by `toggle_sensitive`'s `UPDATE` statement,
given the current `is_sensitive` of the row that was looked up
(`new_sensitive = not current_sensitive`). -/
def toggleUpd (current_sensitive : Bool) (item_id : Nat) (a : Option String)
    (x : Item) : Item :=
  if x.id = item_id then
    if !current_sensitive && aliasTruthy a then
      { x with is_sensitive := true, aliasCol := a }
    else if !current_sensitive then
      { x with is_sensitive := true, aliasCol := some defaultAlias }
    else
      { x with is_sensitive := false, aliasCol := none }
  else x

/-- `ClipboardDB.toggle_sensitive` (`src/database.py:100-137`): look up the
row's current `is_sensitive`; absent row → `False`.  Otherwise update the
row (`WHERE id = ?` touches every row with that id) via `toggleUpd`.
`cursor.rowcount > 0` holds because the row exists. -/
def toggle_sensitive (db : ClipboardDB) (item_id : Nat)
    (a : Option String) : ClipboardDB × Bool :=
  match db.items.find? (fun x => x.id == item_id) with
  | none => (db, false)
  | some it =>
    (⟨db.items.map (toggleUpd it.is_sensitive item_id a), db.next_id⟩, true)

/-- `ClipboardDB.update_alias` (`src/database.py:139-149`):
`UPDATE clipboard_items SET alias = ? WHERE id = ? AND is_sensitive = 1`,
returning `cursor.rowcount > 0` — true iff some row matched the `WHERE`. -/
def update_alias (db : ClipboardDB) (item_id : Nat) (a : String) :
    ClipboardDB × Bool :=
  (⟨db.items.map fun x =>
      if x.id = item_id ∧ x.is_sensitive = true then { x with aliasCol := some a }
      else x,
    db.next_id⟩,
   db.items.any fun x => x.id == item_id && x.is_sensitive)

/-- The id list computed by `ClipboardDB.cleanup_old_items`
(`src/database.py:178-190`): ids of pinned rows `UNION` ids of the first
`max_unpinned` unpinned rows in `ORDER BY timestamp DESC` order (the two
operands are disjoint, so the SQL set union is the concatenation up to
order, and only membership in the list is ever used). -/
def keepIds (db : ClipboardDB) (max_unpinned : Nat) : List Nat :=
  (pinnedItems db.items).map Item.id ++
    ((sortByRecency (unpinnedItems db.items)).take max_unpinned).map Item.id

/-- `ClipboardDB.cleanup_old_items` (`src/database.py:173-198`): compute the
keep list; when it is non-empty (`if keep_ids:` — an empty Python list is
falsy) delete every row whose id is not in it, otherwise do nothing. -/
def cleanup_old_items (db : ClipboardDB) (max_unpinned : Nat) : ClipboardDB :=
  let keep := keepIds db max_unpinned
  if keep = [] then db
  else ⟨db.items.filter fun x => keep.contains x.id, db.next_id⟩

/-- Python whitespace, as used by `str.strip` and `str.isspace` on the ASCII
range: space, tab, newline, carriage return, vertical tab, form feed. -/
def isPySpace (c : Char) : Bool :=
  c = ' ' || c = '\t' || c = '\n' || c = '\r' || c = '\x0b' || c = '\x0c'

/-- Python `str.strip()` on the character list: drop whitespace from both
ends (interior whitespace is retained). -/
def pyStripList (l : List Char) : List Char :=
  ((l.dropWhile isPySpace).reverse.dropWhile isPySpace).reverse

/-- Python `content.strip()`. -/
def pyStrip (s : String) : String :=
  ⟨pyStripList s.data⟩

/-- The number of non-whitespace characters of a string (the quantity the
spec's noise rule (c) is phrased in). -/
def nonWsCount (s : String) : Nat :=
  s.data.countP fun c => !isPySpace c

/-- One tick of `ClipboardMonitor._monitor_loop` (`src/clipboard_monitor.py:
50-61`) after a successful `pyperclip.paste()`: when the value differs from
`last_content` and strips to a non-empty string (`isinstance(..., str)` is
always true), update `last_content` and invoke the callback with the value.
Returns the new `last_content` and the value handed to the callback, if
any. -/
def monitorTick (last cur : String) : String × Option String :=
  if cur ≠ last ∧ pyStrip cur ≠ "" then (cur, some cur) else (last, none)

/-- `PasteyApp.on_clipboard_change` (`src/pastey.py:103-116`): drop content
whose stripped length is below 2, otherwise hand it to
`ClipboardDB.add_item`. -/
def on_clipboard_change (db : ClipboardDB) (content : String) (now : Nat) :
    ClipboardDB :=
  if (pyStrip content).length < 2 then db else (add_item db content now).1

/-- One observed clipboard value flowing through the monitor tick and the
`on_clipboard_change` filter: the updated `last_content` paired with the
content of the insertion request reaching `ClipboardDB.add_item`, if one is
emitted. -/
def pollerStep (last cur : String) : String × Option String :=
  match monitorTick last cur with
  | (last2, none) => (last2, none)
  | (last2, some c) =>
    if (pyStrip c).length < 2 then (last2, none) else (last2, some c)

/-- A whole sequence of observed clipboard values driven through
`pollerStep`, collecting every emitted insertion request. -/
def pollerRun (last : String) : List String → String × List String
  | [] => (last, [])
  | v :: rest =>
    let s := pollerStep last v
    let r := pollerRun s.1 rest
    (r.1, s.2.toList ++ r.2)

/-! Concrete states used by witnesses and counterexamples. -/

/-- A single unpinned row. -/
def exItem : Item := ⟨0, "aa", false, false, none, 0⟩

/-- A store holding just `exItem`. -/
def dbOne : ClipboardDB := ⟨[exItem], 1⟩

/-- Three rows: two unpinned, one pinned, inserted in timestamp order. -/
def db3 : ClipboardDB :=
  ⟨[⟨0, "aa", false, false, none, 0⟩, ⟨1, "bb", false, false, none, 1⟩,
    ⟨2, "pp", true, false, none, 2⟩], 3⟩

/-- The pinned row of `db3`. -/
def itP : Item := ⟨2, "pp", true, false, none, 2⟩

/-- The spec's retention scenario: unpinned A, B, C inserted in this order. -/
def dbABC : ClipboardDB :=
  ⟨[⟨0, "A", false, false, none, 0⟩, ⟨1, "B", false, false, none, 1⟩,
    ⟨2, "C", false, false, none, 2⟩], 3⟩

/-- Entry A of `dbABC`. -/
def itA : Item := ⟨0, "A", false, false, none, 0⟩

/-- A store reached from the empty store by 100 accepted `add_item` calls
(contents `"0"`, …, `"99"`, all in the same clock tick). -/
def db100 : ClipboardDB :=
  (List.range 100).foldl (fun db i => (add_item db (toString i) 0).1) ⟨[], 0⟩

/-! Helper lemmas about `str.strip` and the non-whitespace character count. -/

theorem head?_dropWhile_pySpace (l : List Char) (c : Char)
    (h : (l.dropWhile isPySpace).head? = some c) : isPySpace c = false := by
  induction l with
  | nil => simp at h
  | cons a t ih =>
    rw [List.dropWhile_cons] at h
    by_cases ha : isPySpace a = true
    · rw [if_pos ha] at h
      exact ih h
    · rw [if_neg ha] at h
      simp at h
      rw [← h]
      simpa using ha

theorem countP_dropWhile_pySpace (l : List Char) :
    (l.dropWhile isPySpace).countP (fun c => !isPySpace c) =
      l.countP (fun c => !isPySpace c) := by
  induction l with
  | nil => rfl
  | cons a t ih =>
    rw [List.dropWhile_cons]
    by_cases ha : isPySpace a = true
    · rw [if_pos ha, ih, List.countP_cons, ha]
      simp
    · rw [if_neg ha]

theorem getLast?_dropWhile_pySpace (l : List Char)
    (h : l.dropWhile isPySpace ≠ []) :
    (l.dropWhile isPySpace).getLast? = l.getLast? := by
  induction l with
  | nil => simp at h
  | cons a t ih =>
    rw [List.dropWhile_cons]
    by_cases ha : isPySpace a = true
    · rw [List.dropWhile_cons, if_pos ha] at h
      have ht : t ≠ [] := by
        intro he
        rw [he] at h
        simp at h
      obtain ⟨b, t', rfl⟩ : ∃ b t', t = b :: t' := by
        cases t with
        | nil => exact absurd rfl ht
        | cons b t' => exact ⟨b, t', rfl⟩
      rw [if_pos ha, ih h, List.getLast?_cons_cons]
    · rw [if_neg ha]

theorem countP_reverse_char (l : List Char) (p : Char → Bool) :
    l.reverse.countP p = l.countP p := by
  simp [List.countP_eq_length_filter]

/-- `pyStripList` removes only whitespace characters, so the number of
non-whitespace characters is unchanged. -/
theorem countP_pyStripList (l : List Char) :
    (pyStripList l).countP (fun c => !isPySpace c) =
      l.countP (fun c => !isPySpace c) := by
  unfold pyStripList
  rw [countP_reverse_char, countP_dropWhile_pySpace, countP_reverse_char,
    countP_dropWhile_pySpace]

theorem pyStripList_head? (l : List Char) (c : Char)
    (h : (pyStripList l).head? = some c) : isPySpace c = false := by
  unfold pyStripList at h
  rw [List.head?_reverse] at h
  rcases hd : (l.dropWhile isPySpace).reverse.dropWhile isPySpace with _ | ⟨b, t⟩
  · rw [hd] at h
    simp at h
  · rw [getLast?_dropWhile_pySpace _ (by rw [hd]; simp)] at h
    rw [List.getLast?_reverse] at h
    exact head?_dropWhile_pySpace l c h

theorem pyStripList_getLast? (l : List Char) (c : Char)
    (h : (pyStripList l).getLast? = some c) : isPySpace c = false := by
  unfold pyStripList at h
  rw [List.getLast?_reverse] at h
  exact head?_dropWhile_pySpace _ c h

/-- The two-sided bridge between the code's test
`len(content.strip()) >= 2` and the spec's phrasing
"at least 2 non-whitespace characters": a stripped string of length ≥ 2 has
non-whitespace characters at both ends, and conversely every non-whitespace
character survives the strip. -/
theorem pyStripList_length_iff (l : List Char) :
    2 ≤ (pyStripList l).length ↔ 2 ≤ l.countP (fun c => !isPySpace c) := by
  constructor
  · intro h2
    rw [← countP_pyStripList]
    rcases hs : pyStripList l with _ | ⟨a, t⟩
    · rw [hs] at h2
      simp at h2
    · have ht : t ≠ [] := by
        intro he
        rw [hs, he] at h2
        simp at h2
      have ha : isPySpace a = false := by
        apply pyStripList_head? l
        rw [hs]
        rfl
      have hlast : ∃ c, t.getLast? = some c := by
        rcases hl : t.getLast? with _ | c
        · rw [List.getLast?_eq_none_iff] at hl
          exact absurd hl ht
        · exact ⟨c, rfl⟩
      obtain ⟨c, hc⟩ := hlast
      have hcw : isPySpace c = false := by
        apply pyStripList_getLast? l
        rw [hs]
        cases t with
        | nil => exact absurd rfl ht
        | cons b t' => rw [List.getLast?_cons_cons]; exact hc
      have hcmem : c ∈ t := List.mem_of_getLast?_eq_some hc
      have hpos : 0 < t.countP (fun c => !isPySpace c) :=
        List.countP_pos_iff.mpr ⟨c, hcmem, by simp [hcw]⟩
      rw [List.countP_cons,
        if_pos (show (fun c => !isPySpace c) a = true by simp [ha])]
      omega
  · intro h2
    calc 2 ≤ l.countP (fun c => !isPySpace c) := h2
    _ = (pyStripList l).countP (fun c => !isPySpace c) :=
        (countP_pyStripList l).symm
    _ ≤ (pyStripList l).length := List.countP_le_length _

/-- String-level form of the bridge. -/
theorem pyStrip_length_iff (s : String) :
    2 ≤ (pyStrip s).length ↔ 2 ≤ nonWsCount s :=
  pyStripList_length_iff s.data

theorem pyStrip_data (s : String) : (pyStrip s).data = pyStripList s.data := rfl

theorem pyStrip_eq_empty_iff (s : String) :
    pyStrip s = "" ↔ pyStripList s.data = [] := by
  rw [String.ext_iff, pyStrip_data]

/-! Helper lemmas about the recency sort and the retention keep list. -/

theorem sortByRecency_perm (l : List Item) : (sortByRecency l).Perm l :=
  List.perm_insertionSort tsDesc l

theorem mem_sortByRecency (l : List Item) (x : Item) :
    x ∈ sortByRecency l ↔ x ∈ l :=
  (sortByRecency_perm l).mem_iff

/-- A row strictly more recent than every row of `l` is the head of the
recency sort of `l ++ [y]` — i.e. the most recent row after appending it. -/
theorem head?_sortByRecency_append (l : List Item) (y : Item)
    (hf : ∀ x ∈ l, x.timestamp < y.timestamp) :
    (sortByRecency (l ++ [y])).head? = some y := by
  have hmem : y ∈ sortByRecency (l ++ [y]) := by
    rw [mem_sortByRecency]
    simp
  have hsorted : List.Sorted tsDesc (sortByRecency (l ++ [y])) :=
    List.sorted_insertionSort tsDesc (l ++ [y])
  rcases hS : sortByRecency (l ++ [y]) with _ | ⟨a, T⟩
  · rw [hS] at hmem
    simp at hmem
  · have haorig : a ∈ l ++ [y] := by
      rw [← mem_sortByRecency, hS]
      exact List.mem_cons_self a T
    rcases List.mem_append.mp haorig with hal | hay
    · exfalso
      have hlt : a.timestamp < y.timestamp := hf a hal
      rw [hS] at hmem hsorted
      rcases List.mem_cons.mp hmem with rfl | hyT
      · exact Nat.lt_irrefl _ hlt
      · have := List.rel_of_sorted_cons hsorted y hyT
        unfold tsDesc at this
        omega
    · simp at hay
      rw [hay]
      rfl

theorem keepIds_eq_nil (db : ClipboardDB) (m : Nat)
    (h : keepIds db m = []) :
    pinnedItems db.items = [] ∧
      (sortByRecency (unpinnedItems db.items)).take m = [] := by
  unfold keepIds at h
  rw [List.append_eq_nil] at h
  exact ⟨List.map_eq_nil_iff.mp h.1, List.map_eq_nil_iff.mp h.2⟩

/-- When the keep list is empty and the limit is positive there are no rows
at all: no pinned row survives the pinned filter and no unpinned row
survives the recency sort. -/
theorem items_eq_nil_of_keepIds_nil (db : ClipboardDB) (m : Nat)
    (hm : 1 ≤ m) (h : keepIds db m = []) : db.items = [] := by
  obtain ⟨hp, ht⟩ := keepIds_eq_nil db m h
  rw [List.take_eq_nil_iff] at ht
  rcases ht with hm0 | hs
  · omega
  · have hlen := (sortByRecency_perm (unpinnedItems db.items)).length_eq
    rw [hs] at hlen
    have hu : unpinnedItems db.items = [] :=
      List.eq_nil_of_length_eq_zero (by simpa using hlen.symm)
    rw [List.eq_nil_iff_forall_not_mem]
    intro x hx
    cases hpin : x.is_pinned with
    | true =>
      have : x ∈ pinnedItems db.items :=
        List.mem_filter.mpr ⟨hx, hpin⟩
      rw [hp] at this
      simp at this
    | false =>
      have : x ∈ unpinnedItems db.items :=
        List.mem_filter.mpr ⟨hx, by simp [hpin]⟩
      rw [hu] at this
      simp at this

/-- Membership of a row's id in the keep list, for a table with unique ids:
the id is kept exactly when the row is pinned or among the `max_unpinned`
most recent unpinned rows. -/
theorem mem_keepIds_iff (db : ClipboardDB) (m : Nat)
    (hnd : (db.items.map Item.id).Nodup) (x : Item) (hx : x ∈ db.items) :
    x.id ∈ keepIds db m ↔
      (x.is_pinned = true ∨
        x ∈ (sortByRecency (unpinnedItems db.items)).take m) := by
  have hinj := List.inj_on_of_nodup_map hnd
  unfold keepIds
  rw [List.mem_append]
  constructor
  · rintro (hpin | htake)
    · obtain ⟨y, hy, hyx⟩ := List.mem_map.mp hpin
      have hyl : y ∈ db.items := List.mem_of_mem_filter hy
      have : y = x := hinj hyl hx hyx
      subst this
      exact Or.inl (List.of_mem_filter hy)
    · obtain ⟨y, hy, hyx⟩ := List.mem_map.mp htake
      have hyl : y ∈ db.items := by
        have := List.mem_of_mem_take hy
        rw [mem_sortByRecency] at this
        exact List.mem_of_mem_filter this
      have : y = x := hinj hyl hx hyx
      subst this
      exact Or.inr hy
  · rintro (hpin | htake)
    · exact Or.inl (List.mem_map.mpr
        ⟨x, List.mem_filter.mpr ⟨hx, hpin⟩, rfl⟩)
    · exact Or.inr (List.mem_map.mpr ⟨x, htake, rfl⟩)

/-- The rows surviving a cleanup whose keep list is non-empty are exactly
the original rows whose id is in the keep list. -/
theorem mem_cleanup_iff (db : ClipboardDB) (m : Nat)
    (hk : keepIds db m ≠ []) (x : Item) :
    x ∈ (cleanup_old_items db m).items ↔
      x ∈ db.items ∧ x.id ∈ keepIds db m := by
  unfold cleanup_old_items
  rw [if_neg hk]
  simp only [List.mem_filter]
  constructor
  · rintro ⟨h1, h2⟩
    exact ⟨h1, List.elem_iff.mp h2⟩
  · rintro ⟨h1, h2⟩
    exact ⟨h1, List.elem_iff.mpr h2⟩

theorem cleanup_next_id (db : ClipboardDB) (m : Nat) :
    (cleanup_old_items db m).next_id = db.next_id := by
  by_cases h : keepIds db m = [] <;> simp [cleanup_old_items, h]

theorem cleanup_items_sublist (db : ClipboardDB) (m : Nat) :
    List.Sublist (cleanup_old_items db m).items db.items := by
  by_cases h : keepIds db m = [] <;> simp only [cleanup_old_items, h]
  · simp
  · simp only [if_false]
    exact List.filter_sublist db.items

/-- Unique ids survive a cleanup. -/
theorem cleanup_nodup (db : ClipboardDB) (m : Nat)
    (hnd : (db.items.map Item.id).Nodup) :
    ((cleanup_old_items db m).items.map Item.id).Nodup :=
  hnd.sublist ((cleanup_items_sublist db m).map Item.id)

/-- The two branches of `cleanup_old_items` as equations. -/
theorem cleanup_of_keep_nil (db : ClipboardDB) (m : Nat)
    (hk : keepIds db m = []) : cleanup_old_items db m = db := by
  simp [cleanup_old_items, hk]

theorem cleanup_of_keep_ne_nil (db : ClipboardDB) (m : Nat)
    (hk : keepIds db m ≠ []) :
    cleanup_old_items db m =
      ⟨db.items.filter (fun x => (keepIds db m).contains x.id),
        db.next_id⟩ := by
  simp only [cleanup_old_items]
  rw [if_neg hk]

/-- After a cleanup with a non-empty keep list, at most `m` unpinned rows
remain (the crux of the retention ceiling and of idempotence). -/
theorem length_unpinned_cleanup_le (db : ClipboardDB) (m : Nat)
    (hnd : (db.items.map Item.id).Nodup) (hk : keepIds db m ≠ []) :
    (unpinnedItems (cleanup_old_items db m).items).length ≤ m := by
  set T := (sortByRecency (unpinnedItems db.items)).take m with hT
  have hsubset : unpinnedItems (cleanup_old_items db m).items ⊆ T := by
    intro y hy
    have hyc : y ∈ (cleanup_old_items db m).items := List.mem_of_mem_filter hy
    have hyun : y.is_pinned = false := by
      have := List.of_mem_filter hy
      simpa using this
    obtain ⟨hyl, hyk⟩ := (mem_cleanup_iff db m hk y).mp hyc
    rcases (mem_keepIds_iff db m hnd y hyl).mp hyk with hpin | htake
    · rw [hyun] at hpin
      exact absurd hpin (by simp)
    · exact htake
  have hndu : (unpinnedItems (cleanup_old_items db m).items).Nodup := by
    have h1 : (cleanup_old_items db m).items.Nodup :=
      List.Nodup.of_map _ (cleanup_nodup db m hnd)
    exact h1.filter _
  have hsub : List.Subperm (unpinnedItems (cleanup_old_items db m).items) T :=
    List.subperm_of_subset hndu hsubset
  calc (unpinnedItems (cleanup_old_items db m).items).length
      ≤ T.length := hsub.length_le
    _ ≤ m := List.length_take_le m _

/-! Claim theorems. -/

/-- C10: when the retention pass's keep set is empty — no pinned rows and
(empty table or `max_unpinned = 0`) — `cleanup_old_items` deletes nothing
and leaves the store unchanged; in particular with `max_unpinned = 0` and no
pinned rows every unpinned row survives and no ceiling is enforced. -/
theorem cleanup_empty_keep_noop (db : ClipboardDB) (m : Nat)
    (hp : pinnedItems db.items = []) (h : db.items = [] ∨ m = 0) :
    cleanup_old_items db m = db := by
  have hk : keepIds db m = [] := by
    unfold keepIds
    rw [hp]
    simp only [List.map_nil, List.nil_append]
    rw [List.map_eq_nil_iff, List.take_eq_nil_iff]
    rcases h with h | h
    · right
      rw [h]
      rfl
    · left
      exact h
  simp [cleanup_old_items, hk]

theorem cleanup_empty_keep_noop_witness :
    pinnedItems dbOne.items = [] ∧ cleanup_old_items dbOne 0 = dbOne :=
  ⟨by decide, cleanup_empty_keep_noop dbOne 0 (by decide) (Or.inr rfl)⟩

/-- C3 counterexample: at `max_unpinned = 0` with one unpinned row and no
pinned rows, the claimed survivor-set equation fails — the unpinned row
survives the cleanup even though it is neither pinned nor among the first
`0` rows of the recency sort. -/
theorem cleanup_zero_ceiling_cex :
    exItem ∈ (cleanup_old_items dbOne 0).items ∧ exItem.is_pinned = false ∧
      exItem ∉ (sortByRecency (unpinnedItems dbOne.items)).take 0 := by
  decide

/-- C3 (amended with `1 ≤ max_unpinned`, the case the empty-keep-set guard
does not break): the rows surviving `cleanup_old_items` are exactly the
pinned rows together with the rows among the `max_unpinned` most recent
unpinned rows, "most recent" meaning the prefix of the sort by timestamp
descending with ties broken by id ascending. -/
theorem cleanup_keeps_pinned_and_recent (db : ClipboardDB) (m : Nat)
    (hwf : WF db) (hm : 1 ≤ m) (x : Item) :
    x ∈ (cleanup_old_items db m).items ↔
      x ∈ db.items ∧ (x.is_pinned = true ∨
        x ∈ (sortByRecency (unpinnedItems db.items)).take m) := by
  obtain ⟨hnd, -⟩ := hwf
  by_cases hk : keepIds db m = []
  · have hitems := items_eq_nil_of_keepIds_nil db m hm hk
    have h1 : cleanup_old_items db m = db := by simp [cleanup_old_items, hk]
    rw [h1, hitems]
    simp
  · rw [mem_cleanup_iff db m hk x]
    constructor
    · rintro ⟨h1, h2⟩
      exact ⟨h1, (mem_keepIds_iff db m hnd x h1).mp h2⟩
    · rintro ⟨h1, h2⟩
      exact ⟨h1, (mem_keepIds_iff db m hnd x h1).mpr h2⟩

theorem cleanup_keeps_pinned_and_recent_witness :
    (WF dbABC ∧ 1 ≤ 2) ∧
      (itA ∈ (cleanup_old_items dbABC 2).items ↔
        itA ∈ dbABC.items ∧ (itA.is_pinned = true ∨
          itA ∈ (sortByRecency (unpinnedItems dbABC.items)).take 2)) :=
  ⟨⟨by decide, by decide⟩,
    cleanup_keeps_pinned_and_recent dbABC 2 (by decide) (by decide) itA⟩

/-- C4: the retention pass is idempotent — running `cleanup_old_items` a
second time with the same ceiling deletes nothing and returns the same
store. -/
theorem cleanup_old_items_idempotent (db : ClipboardDB) (m : Nat)
    (hwf : WF db) :
    cleanup_old_items (cleanup_old_items db m) m = cleanup_old_items db m := by
  obtain ⟨hnd, -⟩ := hwf
  by_cases hk : keepIds db m = []
  · have h1 : cleanup_old_items db m = db := by simp [cleanup_old_items, hk]
    rw [h1]
    exact h1
  · by_cases hk2 : keepIds (cleanup_old_items db m) m = []
    · exact cleanup_of_keep_nil _ m hk2
    · have hnd1 : ((cleanup_old_items db m).items.map Item.id).Nodup :=
        cleanup_nodup db m hnd
      have hall : ∀ x ∈ (cleanup_old_items db m).items,
          (keepIds (cleanup_old_items db m) m).contains x.id = true := by
        intro x hx
        rw [List.elem_iff]
        rw [mem_keepIds_iff (cleanup_old_items db m) m hnd1 x hx]
        by_cases hpin : x.is_pinned = true
        · exact Or.inl hpin
        · right
          have hxu : x ∈ unpinnedItems (cleanup_old_items db m).items :=
            List.mem_filter.mpr ⟨hx, by simp [Bool.eq_false_iff.mpr hpin]⟩
          have hlen : (unpinnedItems (cleanup_old_items db m).items).length ≤ m :=
            length_unpinned_cleanup_le db m hnd hk
          have hlen2 :
              (sortByRecency (unpinnedItems (cleanup_old_items db m).items)).length ≤ m := by
            rw [(sortByRecency_perm _).length_eq]
            exact hlen
          rw [List.take_of_length_le hlen2, mem_sortByRecency]
          exact hxu
      have hfilter : (cleanup_old_items db m).items.filter
            (fun x => (keepIds (cleanup_old_items db m) m).contains x.id) =
          (cleanup_old_items db m).items :=
        List.filter_eq_self.mpr hall
      rw [cleanup_of_keep_ne_nil _ m hk2, hfilter]

theorem cleanup_old_items_idempotent_witness :
    WF db3 ∧
      cleanup_old_items (cleanup_old_items db3 1) 1 = cleanup_old_items db3 1 :=
  ⟨by decide, cleanup_old_items_idempotent db3 1 (by decide)⟩

set_option maxRecDepth 10000

/-- C1 counterexample: `ClipboardDB.add_item` never invokes
`ClipboardDB.cleanup_old_items` (no caller in the repository does), so an
accepted insertion into a store holding 100 unpinned rows — itself reachable
from the empty store by 100 accepted insertions — leaves 101 unpinned rows,
exceeding the default ceiling of 100. -/
theorem add_item_no_retention_cex :
    (add_item db100 "hello" 1).2 = true ∧
      100 < unpinnedCount (add_item db100 "hello" 1).1.items := by
  decide

/-- C1 (amended): the non-pinned row count is bounded by `max_unpinned` only
after an explicit `cleanup_old_items` call (with a positive ceiling), which
no insertion ever triggers. -/
theorem cleanup_bounds_unpinned (db : ClipboardDB) (m : Nat)
    (hwf : WF db) (hm : 1 ≤ m) :
    unpinnedCount (cleanup_old_items db m).items ≤ m := by
  obtain ⟨hnd, -⟩ := hwf
  by_cases hk : keepIds db m = []
  · have hitems := items_eq_nil_of_keepIds_nil db m hm hk
    have h1 : cleanup_old_items db m = db := by simp [cleanup_old_items, hk]
    rw [h1]
    unfold unpinnedCount unpinnedItems
    rw [hitems]
    simp
  · exact length_unpinned_cleanup_le db m hnd hk

theorem cleanup_bounds_unpinned_witness :
    (WF db3 ∧ 1 ≤ 1) ∧ unpinnedCount (cleanup_old_items db3 1).items ≤ 1 :=
  ⟨⟨by decide, by decide⟩, cleanup_bounds_unpinned db3 1 (by decide) (by decide)⟩

/-- C2: inserting content equal to the current most recent row's content is
rejected as a duplicate — `add_item` returns `false` and the store is
untouched; and inserting the same content twice in a row (the second call at
any later instant, the first at an instant strictly after every stored
timestamp, as a ticking clock guarantees) stores the content at most once,
with the second call returning `false` and leaving the store unchanged. -/
theorem add_item_duplicate_rejection (db : ClipboardDB) (c : String)
    (now t2 : Nat) :
    ((∃ e, mostRecent? db = some e ∧ e.content = c) →
      add_item db c now = (db, false)) ∧
    ((∀ x ∈ db.items, x.timestamp < now) →
      (add_item (add_item db c now).1 c t2).2 = false ∧
      (add_item (add_item db c now).1 c t2).1 = (add_item db c now).1 ∧
      ((add_item db c now).2 = true →
        (add_item db c now).1.items.length = db.items.length + 1)) := by
  constructor
  · rintro ⟨e, he, hec⟩
    have hd : is_duplicate db c = true := by
      unfold is_duplicate
      rw [he]
      simp [hec]
    simp [add_item, hd]
  · intro hf
    by_cases hd : is_duplicate db c = true
    · have h1 : add_item db c now = (db, false) := by simp [add_item, hd]
      have h2 : add_item db c t2 = (db, false) := by simp [add_item, hd]
      rw [h1]
      rw [show (db, false).1 = db from rfl, h2]
      refine ⟨rfl, rfl, ?_⟩
      intro hT
      simp at hT
    · have h1 : add_item db c now =
          (⟨db.items ++ [⟨db.next_id, c, false, false, none, now⟩],
            db.next_id + 1⟩, true) := by
        simp [add_item, hd]
      have hhead : (sortByRecency
            (db.items ++ [⟨db.next_id, c, false, false, none, now⟩])).head? =
          some ⟨db.next_id, c, false, false, none, now⟩ :=
        head?_sortByRecency_append db.items _ (fun x hx => hf x hx)
      set d1 := (add_item db c now).1 with hd1
      have hdup2 : is_duplicate d1 c = true := by
        rw [hd1, h1]
        unfold is_duplicate mostRecent?
        simp [hhead]
      have h2 : add_item d1 c t2 = (d1, false) := by
        rw [show add_item d1 c t2 =
            if is_duplicate d1 c then (d1, false)
            else (⟨d1.items ++ [⟨d1.next_id, c, false, false, none, t2⟩],
              d1.next_id + 1⟩, true) from rfl]
        simp [hdup2]
      rw [h2]
      refine ⟨rfl, rfl, ?_⟩
      intro _
      rw [hd1, h1]
      simp

theorem add_item_duplicate_rejection_witness :
    (mostRecent? db3 = some itP ∧ itP.content = "pp" ∧
      add_item db3 "pp" 7 = (db3, false)) ∧
    (add_item (add_item db3 "cc" 7).1 "cc" 8).2 = false :=
  ⟨⟨by decide, by decide,
      (add_item_duplicate_rejection db3 "pp" 7 8).1 ⟨itP, by decide, by decide⟩⟩,
    ((add_item_duplicate_rejection db3 "cc" 7 8).2 (by decide)).1⟩

/-- C5: `get_all_items` returns all rows (a permutation of the table), with
every pinned row before every unpinned row and, within each group,
timestamps in descending order; being a pure query of the model it cannot
mutate the store. -/
theorem get_all_items_ordered (db : ClipboardDB) :
    (get_all_items db).Perm db.items ∧
      (get_all_items db).Pairwise (fun a b =>
        (b.is_pinned = true → a.is_pinned = true) ∧
        (a.is_pinned = b.is_pinned → b.timestamp ≤ a.timestamp)) := by
  constructor
  · exact List.perm_insertionSort displayOrder db.items
  · have hs : List.Sorted displayOrder (get_all_items db) :=
      List.sorted_insertionSort displayOrder db.items
    refine hs.imp ?_
    intro a b hab
    rcases hab with ⟨ha, hb⟩ | ⟨heq, hts⟩
    · constructor
      · intro hbt
        rw [hb] at hbt
        exact absurd hbt (by simp)
      · intro he
        rw [ha, hb] at he
        exact absurd he (by simp)
    · constructor
      · intro hbt
        rw [heq]
        exact hbt
      · intro _
        unfold tsDesc at hts
        omega

/-! Helper lemmas for the id-keyed updates. -/

theorem id_not_mem_of_split (l₁ l₂ : List Item) (it : Item)
    (hnd : ((l₁ ++ it :: l₂).map Item.id).Nodup) :
    (∀ y ∈ l₁, y.id ≠ it.id) ∧ ∀ y ∈ l₂, y.id ≠ it.id := by
  rw [List.map_append, List.map_cons, List.nodup_append] at hnd
  obtain ⟨h1, h2, hdisj⟩ := hnd
  constructor
  · intro y hy heq
    exact hdisj (List.mem_map_of_mem Item.id hy)
      (by rw [heq]; exact List.mem_cons_self _ _)
  · intro y hy heq
    rw [List.nodup_cons] at h2
    exact h2.1 (by rw [← heq]; exact List.mem_map_of_mem Item.id hy)

theorem find?_id_split (l₁ l₂ : List Item) (it : Item) (item_id : Nat)
    (hid : it.id = item_id) (h1 : ∀ y ∈ l₁, y.id ≠ it.id) :
    (l₁ ++ it :: l₂).find? (fun x => x.id == item_id) = some it := by
  rw [List.find?_append]
  have hnone : l₁.find? (fun x => x.id == item_id) = none := by
    rw [List.find?_eq_none]
    intro y hy
    simp only [beq_iff_eq]
    rw [← hid]
    exact h1 y hy
  rw [hnone, List.find?_cons_of_pos _ (by simp [hid])]
  rfl

/-- C6 counterexample: `toggle_sensitive` with the explicitly supplied alias
`""` stores the default placeholder, not the supplied value — the Python
`if new_sensitive and alias:` treats the empty string as "no alias". -/
theorem toggle_sensitive_empty_alias_cex :
    (toggle_sensitive dbOne 0 (some "")).1.items.map Item.aliasCol =
        [some defaultAlias] ∧
      defaultAlias ≠ "" := by
  decide

/-- C6 (amended: a supplied alias is honoured only when non-empty; an absent
or empty alias yields the placeholder): `toggle_sensitive` on a missing id
returns `false` and changes nothing; on an existing row it returns `true`
and flips `is_sensitive`, storing (when turning sensitive) the supplied
alias if truthy, else the placeholder, and clearing the alias when turning
non-sensitive; all other rows and fields are untouched. -/
theorem toggle_sensitive_spec (db : ClipboardDB) (item_id : Nat)
    (a : Option String) :
    ((∀ x ∈ db.items, x.id ≠ item_id) →
      toggle_sensitive db item_id a = (db, false)) ∧
    (WF db → ∀ it l₁ l₂, db.items = l₁ ++ it :: l₂ → it.id = item_id →
      (toggle_sensitive db item_id a).2 = true ∧
      (toggle_sensitive db item_id a).1.next_id = db.next_id ∧
      (toggle_sensitive db item_id a).1.items =
        l₁ ++ { it with
          is_sensitive := (!it.is_sensitive)
          aliasCol := if it.is_sensitive then none
            else if aliasTruthy a then a else some defaultAlias } :: l₂) := by
  constructor
  · intro hnone
    have hfind : db.items.find? (fun x => x.id == item_id) = none := by
      rw [List.find?_eq_none]
      intro y hy
      simpa using hnone y hy
    unfold toggle_sensitive
    rw [hfind]
  · rintro ⟨hnd, -⟩ it l₁ l₂ hsplit hid
    have hids := id_not_mem_of_split l₁ l₂ it (by rw [← hsplit]; exact hnd)
    have hfind : db.items.find? (fun x => x.id == item_id) = some it := by
      rw [hsplit]
      exact find?_id_split l₁ l₂ it item_id hid hids.1
    unfold toggle_sensitive
    rw [hfind]
    refine ⟨rfl, rfl, ?_⟩
    show db.items.map (toggleUpd it.is_sensitive item_id a) = _
    rw [hsplit, List.map_append, List.map_cons]
    have hl₁ : l₁.map (toggleUpd it.is_sensitive item_id a) = l₁ := by
      have h : ∀ y ∈ l₁, toggleUpd it.is_sensitive item_id a y = y := by
        intro y hy
        unfold toggleUpd
        rw [if_neg]
        rw [hid] at hids
        exact hids.1 y hy
      rw [List.map_congr_left h]
      exact List.map_id l₁
    have hl₂ : l₂.map (toggleUpd it.is_sensitive item_id a) = l₂ := by
      have h : ∀ y ∈ l₂, toggleUpd it.is_sensitive item_id a y = y := by
        intro y hy
        unfold toggleUpd
        rw [if_neg]
        rw [hid] at hids
        exact hids.2 y hy
      rw [List.map_congr_left h]
      exact List.map_id l₂
    have hit : toggleUpd it.is_sensitive item_id a it =
        { it with
          is_sensitive := (!it.is_sensitive)
          aliasCol := if it.is_sensitive then none
            else if aliasTruthy a then a else some defaultAlias } := by
      unfold toggleUpd
      rw [if_pos hid]
      cases hs : it.is_sensitive
      · cases hta : aliasTruthy a <;> simp
      · simp
    rw [hl₁, hl₂, hit]

theorem toggle_sensitive_spec_witness :
    toggle_sensitive db3 9 none = (db3, false) ∧
    (WF db3 ∧
      (toggle_sensitive db3 0 (some "card")).2 = true ∧
      (toggle_sensitive db3 0 (some "card")).1.next_id = db3.next_id ∧
      (toggle_sensitive db3 0 (some "card")).1.items =
        [] ++ { (⟨0, "aa", false, false, none, 0⟩ : Item) with
            is_sensitive := (!(false : Bool))
            aliasCol := if (false : Bool) then none
              else if aliasTruthy (some "card") then some "card"
              else some defaultAlias } ::
          [⟨1, "bb", false, false, none, 1⟩, ⟨2, "pp", true, false, none, 2⟩]) :=
  ⟨(toggle_sensitive_spec db3 9 none).1 (by decide),
    ⟨by decide,
      (toggle_sensitive_spec db3 0 (some "card")).2 (by decide)
        ⟨0, "aa", false, false, none, 0⟩ []
        [⟨1, "bb", false, false, none, 1⟩, ⟨2, "pp", true, false, none, 2⟩]
        rfl rfl⟩⟩

/-- C7: `update_alias` succeeds (returns `true`) exactly when a row with the
id exists and is currently sensitive, in which case that row's alias becomes
the supplied value and nothing else changes; in every other case it is a
no-op returning `false` and leaving the store unchanged (never an error). -/
theorem update_alias_spec (db : ClipboardDB) (item_id : Nat) (a : String) :
    ((update_alias db item_id a).2 = true ↔
      ∃ it ∈ db.items, it.id = item_id ∧ it.is_sensitive = true) ∧
    ((∀ x ∈ db.items, ¬(x.id = item_id ∧ x.is_sensitive = true)) →
      (update_alias db item_id a).1 = db) ∧
    (WF db → ∀ it l₁ l₂, db.items = l₁ ++ it :: l₂ → it.id = item_id →
      it.is_sensitive = true →
      (update_alias db item_id a).1.next_id = db.next_id ∧
      (update_alias db item_id a).1.items =
        l₁ ++ { it with aliasCol := some a } :: l₂) := by
  refine ⟨?_, ?_, ?_⟩
  · show db.items.any (fun x => x.id == item_id && x.is_sensitive) = true ↔ _
    rw [List.any_eq_true]
    constructor
    · rintro ⟨it, h1, h2⟩
      refine ⟨it, h1, ?_⟩
      simpa using h2
    · rintro ⟨it, h1, h2⟩
      refine ⟨it, h1, ?_⟩
      simpa using h2
  · intro hno
    have hmap : db.items.map (fun x =>
        if x.id = item_id ∧ x.is_sensitive = true then
          { x with aliasCol := some a } else x) = db.items := by
      have h : ∀ y ∈ db.items, (fun x =>
          if x.id = item_id ∧ x.is_sensitive = true then
            { x with aliasCol := some a } else x) y = y := by
        intro y hy
        exact if_neg (hno y hy)
      rw [List.map_congr_left h]
      exact List.map_id db.items
    show (⟨db.items.map _, db.next_id⟩ : ClipboardDB) = db
    rw [hmap]
  · rintro ⟨hnd, -⟩ it l₁ l₂ hsplit hid hsens
    have hids := id_not_mem_of_split l₁ l₂ it (by rw [← hsplit]; exact hnd)
    refine ⟨rfl, ?_⟩
    show db.items.map _ = _
    rw [hsplit, List.map_append, List.map_cons]
    have hl₁ : l₁.map (fun x =>
        if x.id = item_id ∧ x.is_sensitive = true then
          { x with aliasCol := some a } else x) = l₁ := by
      have h : ∀ y ∈ l₁, (fun x =>
          if x.id = item_id ∧ x.is_sensitive = true then
            { x with aliasCol := some a } else x) y = y := by
        intro y hy
        refine if_neg ?_
        rintro ⟨h1, -⟩
        rw [hid] at hids
        exact hids.1 y hy h1
      rw [List.map_congr_left h]
      exact List.map_id l₁
    have hl₂ : l₂.map (fun x =>
        if x.id = item_id ∧ x.is_sensitive = true then
          { x with aliasCol := some a } else x) = l₂ := by
      have h : ∀ y ∈ l₂, (fun x =>
          if x.id = item_id ∧ x.is_sensitive = true then
            { x with aliasCol := some a } else x) y = y := by
        intro y hy
        refine if_neg ?_
        rintro ⟨h1, -⟩
        rw [hid] at hids
        exact hids.2 y hy h1
      rw [List.map_congr_left h]
      exact List.map_id l₂
    rw [hl₁, hl₂, if_pos ⟨hid, hsens⟩]

theorem update_alias_spec_witness :
    (update_alias db3 0 "al").2 = false ∧ (update_alias db3 0 "al").1 = db3 :=
  ⟨by decide, (update_alias_spec db3 0 "al").2.1 (by decide)⟩

/-! Poller claims. -/

/-- A characterisation of an emitted insertion request: `pollerStep` emits
exactly the observed value, and only when it changed and strips to length
at least 2. -/
theorem pollerStep_emit (last v e : String)
    (h : (pollerStep last v).2 = some e) :
    e = v ∧ v ≠ last ∧ pyStrip v ≠ "" ∧ 2 ≤ nonWsCount v := by
  unfold pollerStep monitorTick at h
  by_cases hc : v ≠ last ∧ pyStrip v ≠ ""
  · rw [if_pos hc] at h
    by_cases hlen : (pyStrip v).length < 2
    · simp [hlen] at h
    · simp [hlen] at h
      refine ⟨h.symm, hc.1, hc.2, ?_⟩
      rw [← pyStrip_length_iff]
      omega
  · rw [if_neg hc] at h
    simp at h

/-- C8: the poller-plus-callback path never hands `ClipboardDB.add_item` a
value that (a) equals the last observed value, (b) is empty or
whitespace-only after trimming, or (c) has fewer than 2 non-whitespace
characters; for any other changed value it updates the last-observed value
and emits exactly one insertion request carrying that value.  Over any
sequence of observed values, every emitted request was non-blank with at
least 2 non-whitespace characters. -/
theorem poller_noise_filtering :
    (∀ last cur,
      ((cur = last ∨ pyStrip cur = "" ∨ nonWsCount cur < 2) →
        (pollerStep last cur).2 = none) ∧
      (cur ≠ last → pyStrip cur ≠ "" → ¬(nonWsCount cur < 2) →
        pollerStep last cur = (cur, some cur))) ∧
    (∀ last vs, ∀ e ∈ (pollerRun last vs).2,
      pyStrip e ≠ "" ∧ 2 ≤ nonWsCount e) := by
  have hlen_iff : ∀ s : String, 2 ≤ (pyStrip s).length ↔ 2 ≤ nonWsCount s :=
    pyStrip_length_iff
  constructor
  · intro last cur
    constructor
    · rintro (h | h | h)
      · unfold pollerStep monitorTick
        rw [if_neg (by simp [h])]
      · unfold pollerStep monitorTick
        by_cases hc : cur ≠ last ∧ pyStrip cur ≠ ""
        · exact absurd h hc.2
        · rw [if_neg hc]
      · rcases he : (pollerStep last cur).2 with _ | e
        · rfl
        · obtain ⟨-, -, -, hcnt⟩ := pollerStep_emit last cur e he
          omega
    · intro h1 h2 h3
      have hlen : ¬((pyStrip cur).length < 2) := by
        have := (hlen_iff cur).mpr (by omega)
        omega
      unfold pollerStep monitorTick
      rw [if_pos ⟨h1, h2⟩]
      simp [hlen]
  · intro last vs
    induction vs generalizing last with
    | nil =>
      intro e he
      simp [pollerRun] at he
    | cons v rest ih =>
      intro e he
      unfold pollerRun at he
      rw [List.mem_append] at he
      rcases he with he | he
      · rcases hs : (pollerStep last v).2 with _ | c
        · rw [hs] at he
          simp at he
        · rw [hs] at he
          simp at he
          obtain ⟨rfl, -, hne, hcnt⟩ := pollerStep_emit last v c hs
          rw [he]
          exact ⟨hne, hcnt⟩
      · exact ih (pollerStep last v).1 e he

theorem poller_noise_filtering_witness :
    ((pollerStep "ab" "ab").2 = none ∧
      pollerStep "x" " ab " = (" ab ", some " ab ")) ∧
    (pyStrip "hello" ≠ "" ∧ 2 ≤ nonWsCount "hello") :=
  ⟨⟨(poller_noise_filtering.1 "ab" "ab").1 (Or.inl rfl),
      (poller_noise_filtering.1 "x" " ab ").2 (by decide) (by decide)
        (by decide)⟩,
    poller_noise_filtering.2 "" ["hello", "hello", " ", "a", "hi"] "hello"
      (by decide)⟩

/-- C9 counterexample: `ClipboardDB.add_item` performs no validation of
empty content — inserting `""` into an empty store creates a row with empty
content and returns `True`. -/
theorem add_item_empty_content_cex :
    add_item ⟨[], 0⟩ "" 0 = (⟨[⟨0, "", false, false, none, 0⟩], 1⟩, true) := by
  decide

/-- C9 (amended: the empty-content rejection lives in the caller, not in the
store): `PasteyApp.on_clipboard_change` is a no-op for any content with
fewer than 2 non-whitespace characters — in particular for empty content —
so such clipboard values never reach `ClipboardDB.add_item`; the store
itself accepts empty content when it is not a duplicate. -/
theorem empty_content_filtered_by_callback (db : ClipboardDB) (c : String)
    (now : Nat) (h : nonWsCount c < 2) :
    on_clipboard_change db c now = db := by
  have hlen : (pyStrip c).length < 2 := by
    have := (pyStrip_length_iff c).mp
    omega
  unfold on_clipboard_change
  rw [if_pos hlen]

theorem empty_content_filtered_by_callback_witness :
    nonWsCount "" < 2 ∧ on_clipboard_change db3 "" 9 = db3 :=
  ⟨by decide, empty_content_filtered_by_callback db3 "" 9 (by decide)⟩

end Pastey
